import Mathlib

/-!
# A shallow embedding of BotKit's rich-text engine (`src/packages/botkit/src/text.ts`)

This file models the data model and the operations of the text-tree module of
BotKit: plain text, hashtag, mention, the simple inline decorators, link,
markdown, the templated-text paragraph engine, and the `mentions` helper.

JavaScript strings are modelled as Lean `String`s (we model the ASCII fragment
of Unicode case mapping and whitespace, which is what every claim below
exercises).  Asynchronous methods are modelled by explicit state passing: an
operation takes the node's state and returns its result together with the
updated state and the number of times each deferred resolver was invoked.
JavaScript promises settle to either a value or a rejection; we model a settled
promise as `Except Err α` and memoised promise slots as
`Option (Except Err α)`.  Since JavaScript is single threaded and `text.ts`
stores a freshly created promise in its memo slot synchronously (before any
`await`), running operations to completion one after another is faithful for
counting resolver invocations.

External collaborators (the Fedify session, the WHATWG `URL` parser, the
markdown-it parser) are modelled abstractly: a resolution environment records
the deterministic outcome each lookup would have for the fixed session of a
call, and the markdown parser is an abstract record of functions.
-/

namespace Botkit

/-- Model of a WHATWG `URL` value: we keep only its serialisation (`href`). -/
structure Url where
  href : String
deriving DecidableEq, Repr

/-- Model of a Fedify `Actor` object: its `id` and `url` properties.
In `text.ts` the `url` property may also be a `Link` object, which the code
immediately unwraps to its `href`; we collapse that unwrapping and keep
`url : Option Url`. -/
structure ActorObj where
  id : Option Url
  url : Option Url
deriving DecidableEq, Repr

/-- An ActivityPub `Object` as observed by `text.ts`: either an actor
(`isActor` is true) or some other object. -/
inductive Obj where
  | actor (a : ActorObj)
  | other (name : String)
deriving DecidableEq, Repr

/-- Model of Fedify's `isActor` type guard. -/
def isActor : Obj → Bool
  | .actor _ => true
  | .other _ => false

/-- The tag objects `getTags` yields: `Mention` (whose `href` may be `null`)
and `Hashtag`. -/
inductive Tag where
  | mention (name : String) (href : Option Url)
  | hashtag (name : String) (href : Url)
deriving DecidableEq, Repr

/-! ## String utilities used by `text.ts`

`encode` models the default `encode` of the `html-entities` package (its
default mode escapes the five special characters).  `encodeURIComponent`
models the ECMAScript built-in (unreserved characters kept, everything else
percent-encoded from its UTF-8 bytes with uppercase hex digits).  The
whitespace and lowercase functions model the ASCII fragment of the
corresponding JavaScript string operations. -/

/-- One character of `html-entities`' `encode`. -/
def encodeChar (c : Char) : List Char :=
  if c = '&' then "&amp;".data
  else if c = '<' then "&lt;".data
  else if c = '>' then "&gt;".data
  else if c = '"' then "&quot;".data
  else if c = '\'' then "&apos;".data
  else [c]

/-- Model of `html-entities`' `encode` (HTML special-character escaping). -/
def encode (s : String) : String :=
  String.mk ((s.data.map encodeChar).flatten)

/-- Uppercase hexadecimal digit. -/
def hexDigitChar (n : Nat) : Char :=
  if n < 10 then Char.ofNat (48 + n) else Char.ofNat (55 + n)

/-- Two-digit uppercase hex rendering of a byte. -/
def byteHex (b : Nat) : List Char :=
  [hexDigitChar (b / 16), hexDigitChar (b % 16)]

/-- UTF-8 bytes of a character (as natural numbers below 256). -/
def utf8Bytes (c : Char) : List Nat :=
  let n := c.toNat
  if n < 128 then [n]
  else if n < 2048 then [192 + n / 64, 128 + n % 64]
  else if n < 65536 then [224 + n / 4096, 128 + (n / 64) % 64, 128 + n % 64]
  else [240 + n / 262144, 128 + (n / 4096) % 64, 128 + (n / 64) % 64, 128 + n % 64]

/-- Characters `encodeURIComponent` leaves unescaped. -/
def uriUnreservedChar (c : Char) : Bool :=
  c.isAlpha || c.isDigit || c = '-' || c = '_' || c = '.' ||
    c = '!' || c = '~' || c = '*' || c = '\'' || c = '(' || c = ')'

/-- Model of ECMAScript `encodeURIComponent`. -/
def encodeURIComponent (s : String) : String :=
  String.mk ((s.data.map fun c =>
    if uriUnreservedChar c then [c]
    else ((utf8Bytes c).map fun b => '%' :: byteHex b).flatten).flatten)

/-- ASCII fragment of JavaScript's whitespace class `\s`. -/
def isJsWhitespace (c : Char) : Bool :=
  c = ' ' || c = '\t' || c = '\n' || c = '\r' || c = '\x0b' || c = '\x0c'

/-- Model of JavaScript `String.prototype.trimStart`. -/
def jsTrimStart (s : String) : String :=
  String.mk (s.data.dropWhile isJsWhitespace)

/-- Model of JavaScript `String.prototype.trim`. -/
def jsTrim (s : String) : String :=
  String.mk (((s.data.dropWhile isJsWhitespace).reverse.dropWhile
    isJsWhitespace).reverse)

/-- Model of JavaScript `String.prototype.toLowerCase` (ASCII fragment). -/
def jsToLower (s : String) : String :=
  String.mk (s.data.map Char.toLower)

/-- `replace(/^#/, "")`: strip one leading `#` if present. -/
def stripLeadingHash (s : String) : String :=
  match s.data with
  | '#' :: rest => String.mk rest
  | _ => s

/-- The scan of `replace(/\s+/g, " ")`: the flag records whether the
previous character was whitespace (in which case this one extends an
already-replaced run). -/
def collapseWsAux : Bool → List Char → List Char
  | _, [] => []
  | prevWs, c :: rest =>
    if isJsWhitespace c then
      if prevWs then collapseWsAux true rest
      else ' ' :: collapseWsAux true rest
    else c :: collapseWsAux false rest

/-- `replace(/\s+/g, " ")`: collapse every whitespace run into one space. -/
def collapseWsChars (l : List Char) : List Char :=
  collapseWsAux false l

/-- `line.trim() === ""`: the line consists of whitespace only. -/
def jsBlank (s : String) : Bool :=
  s.data.all isJsWhitespace

/-- The scan of `split("\n")`. -/
def splitNlAux (pending : List Char) : List Char → List String
  | [] => [String.mk pending.reverse]
  | c :: rest =>
    if c = '\n' then String.mk pending.reverse :: splitNlAux [] rest
    else splitNlAux (c :: pending) rest

/-- Model of JavaScript `s.split("\n")` (split on a plain string, no
captures; an empty input yields `[""]`). -/
def splitNl (s : String) : List String :=
  splitNlAux [] s.data

/-- `label.startsWith("@")` on the character level. -/
def startsWithAt (s : String) : Bool :=
  match s.data with
  | '@' :: _ => true
  | _ => false

/-- `label.substring(1)` on the character level. -/
def substringFrom1 (s : String) : String :=
  String.mk (s.data.drop 1)

/-! ## `PlainText` and the abstract inline child

`PlainText.getHtml` escapes the text and turns interior line breaks into
`<br>` (source lines 240–247).  The decorators (`StrongText`, `EmText`,
`CodeText`, `LinkText`) wrap one inline child and either forward a query to it
or answer it themselves; we represent the wrapped child by the record of its
observable responses for the fixed session of a call. -/

/-- Model of `PlainText.getHtml`: escaped lines joined with `<br>` chunks. -/
def PlainText.getHtml (text : String) : List String :=
  match splitNl text with
  | [] => []
  | l :: rest => encode l :: (rest.map fun ln => ["<br>", encode ln]).flatten

/-- The responses of a wrapped inline child for a fixed session:
its `getHtml` chunks, its `getTags` result and its `getCachedObjects`
result. -/
structure ChildIface where
  html : List String
  tags : List Tag
  cached : List Obj
deriving DecidableEq, Repr

/-- The child built for a plain string (`new PlainText(text)`):
no tags, no cached objects. -/
def plainChild (s : String) : ChildIface :=
  { html := PlainText.getHtml s, tags := [], cached := [] }

/-! ## `HashtagText` (source lines 461–508) -/

/-- Model of the `HashtagText` constructor:
`tag.trimStart().replace(/^#/, "").trim().replace(/\s+/g, " ")`. -/
def HashtagText.mk (tag : String) : String :=
  String.mk (collapseWsChars (jsTrim (stripLeadingHash (jsTrimStart tag))).data)

/-- Model of `HashtagText.getHtml` for an already-normalised tag:
the exact chunks the async generator yields. -/
def HashtagText.getHtml (origin : String) (tag : String) : List String :=
  ["<a href=\"", encode origin, "/tags/",
   encode (encodeURIComponent (jsToLower tag)),
   "\" class=\"mention hashtag\" rel=\"tag\" target=\"_blank\">#<span>",
   tag, "</span></a>"]

/-- Model of `HashtagText.getTags`.  `new URL("/tags/…", origin)` resolves the
path against the origin; for an origin-form base this serialises to
`origin ++ "/tags/…"`. -/
def HashtagText.getTags (origin : String) (tag : String) : List Tag :=
  [Tag.hashtag ("#" ++ jsToLower tag)
    ⟨origin ++ "/tags/" ++ encodeURIComponent (jsToLower tag)⟩]

/-! ## `MentionText` (source lines 280–358)

A `MentionText` holds a label source (a literal string or a deferred
resolver) and an actor source (a literal actor or a deferred resolver),
plus three private mutable fields: `#cachedObject`, `#labelPromise`,
`#actorPromise`.  We model an instance by that record of fields, and a
method call by a function from the state to the result, the new state, and
how many times each deferred resolver was invoked during the call.  A
`ResolveEnv` fixes the (deterministic, per session) outcome each resolver
would produce; a throwing resolver is an `Except.error` outcome. -/

/-- Errors thrown by resolvers (promise rejections). -/
abbrev Err := String

/-- The `#label` field: a literal string or a session-keyed resolver. -/
inductive LabelSrc where
  | lit (s : String)
  | deferred
deriving DecidableEq, Repr

/-- The `#actor` field: a literal actor or a session-keyed resolver. -/
inductive ActorSrc where
  | lit (a : ActorObj)
  | deferred
deriving DecidableEq, Repr

/-- The private fields of a `MentionText` instance. -/
structure MentionText where
  label : LabelSrc
  actor : ActorSrc
  cachedObject : Option Obj
  labelPromise : Option (Except Err String)
  actorPromise : Option (Except Err (Option Obj))
deriving Repr

/-- The outcomes the two deferred resolvers would produce for the session of
the call (lookups are deterministic per fixed session). -/
structure ResolveEnv where
  labelRes : Except Err String
  actorRes : Except Err (Option Obj)
deriving Repr

/-- Model of the `MentionText` constructor (source lines 293–300):
`if (isActor(actor)) this.#cachedObject = actor`. -/
def MentionText.new (label : LabelSrc) (actor : ActorSrc) : MentionText :=
  { label, actor,
    cachedObject := match actor with
      | .lit a => some (.actor a)
      | .deferred => none,
    labelPromise := none,
    actorPromise := none }

/-- Model of `MentionText.#getLabel` (source lines 302–306): a literal label
resolves immediately; otherwise the memo slot is consulted, and on a miss the
resolver runs once and its settled promise is stored. -/
def MentionText.getLabel (env : ResolveEnv) (s : MentionText) :
    Except Err String × MentionText × Nat :=
  match s.label with
  | .lit l => (.ok l, s, 0)
  | .deferred =>
    match s.labelPromise with
    | some p => (p, s, 0)
    | none => (env.labelRes, { s with labelPromise := some env.labelRes }, 1)

/-- Model of `MentionText.#getActor` (source lines 308–315): on a memo miss
the resolver runs once; its `.then` continuation stores a non-null result in
`#cachedObject`, and the settled promise is memoised (also when rejected). -/
def MentionText.getActor (env : ResolveEnv) (s : MentionText) :
    Except Err (Option Obj) × MentionText × Nat :=
  match s.actor with
  | .lit a => (.ok (some (.actor a)), s, 0)
  | .deferred =>
    match s.actorPromise with
    | some p => (p, s, 0)
    | none =>
      ( env.actorRes,
        { s with
          actorPromise := some env.actorRes,
          cachedObject := match env.actorRes with
            | .ok (some o) => some o
            | _ => s.cachedObject },
        1 )

/-- The `url` computation of `MentionText.getHtml` (source lines 320–326):
`!isActor(actor) ? null : actor.url == null ? actor.id : actor.url`. -/
def mentionUrl (actor : Option Obj) : Option Url :=
  match actor with
  | some (.actor a) =>
    match a.url with
    | none => a.id
    | some u => some u
  | _ => none

/-- Model of `MentionText.getHtml` (source lines 317–342).  The result is the
list of chunks the generator yields, or the propagated rejection. -/
def MentionText.getHtml (env : ResolveEnv) (s : MentionText) :
    Except Err (List String) × MentionText × Nat × Nat :=
  match s.getLabel env with
  | (.error e, s1, lc) => (.error e, s1, lc, 0)
  | (.ok label, s1, lc) =>
    match s1.getActor env with
    | (.error e, s2, ac) => (.error e, s2, lc, ac)
    | (.ok actor, s2, ac) =>
      match mentionUrl actor with
      | none => (.ok [encode label], s2, lc, ac)
      | some u =>
        ( .ok (["<a href=\"", encode u.href,
                "\" translate=\"no\" class=\"h-card u-url mention\" target=\"_blank\">"] ++
               (if startsWithAt label then
                 ["@<span>", encode (substringFrom1 label), "</span>"]
                else [encode label]) ++
               ["</a>"]),
          s2, lc, ac )

/-- Model of `MentionText.getTags` (source lines 344–353): one `Mention`
(`name` = label, `href` = `actor.id`) iff the resolved object is an actor. -/
def MentionText.getTags (env : ResolveEnv) (s : MentionText) :
    Except Err (List Tag) × MentionText × Nat × Nat :=
  match s.getLabel env with
  | (.error e, s1, lc) => (.error e, s1, lc, 0)
  | (.ok label, s1, lc) =>
    match s1.getActor env with
    | (.error e, s2, ac) => (.error e, s2, lc, ac)
    | (.ok actor, s2, ac) =>
      match actor with
      | some (.actor a) => (.ok [Tag.mention label a.id], s2, lc, ac)
      | _ => (.ok [], s2, lc, ac)

/-- Model of `MentionText.getCachedObjects` (source lines 355–357):
a pure read of `#cachedObject`. -/
def MentionText.getCachedObjects (s : MentionText) : List Obj :=
  match s.cachedObject with
  | none => []
  | some o => [o]

/-- The public operations of a `MentionText` node. -/
inductive MentionOp where
  | html
  | tags
  | cached
deriving DecidableEq, Repr

/-- Run one operation; return the new state and the number of label/actor
resolver invocations it performed. -/
def MentionText.run1 (env : ResolveEnv) (op : MentionOp) (s : MentionText) :
    MentionText × Nat × Nat :=
  match op with
  | .html => ((s.getHtml env).2.1, (s.getHtml env).2.2)
  | .tags => ((s.getTags env).2.1, (s.getTags env).2.2)
  | .cached => (s, 0, 0)

/-- Run a sequence of operations, accumulating resolver-invocation counts. -/
def MentionText.runOps (env : ResolveEnv) (ops : List MentionOp) (s : MentionText) :
    MentionText × Nat × Nat :=
  match ops with
  | [] => (s, 0, 0)
  | op :: rest =>
    let r1 := s.run1 env op
    let r2 := MentionText.runOps env rest r1.1
    (r2.1, r1.2.1 + r2.2.1, r1.2.2 + r2.2.2)

/-! ## The decorators `StrongText`, `EmText`, `CodeText` (source lines 515–716)

Each wraps one inline child (a plain string is first coerced through
`new PlainText(text)`). -/

/-- The decorator constructors' coercion:
`typeof text === "string" ? new PlainText(text) : text`. -/
def coerceChild : String ⊕ ChildIface → ChildIface
  | .inl s => plainChild s
  | .inr c => c

/-- Model of `StrongText.getHtml`. -/
def StrongText.getHtml (c : ChildIface) : List String :=
  ["<strong>"] ++ c.html ++ ["</strong>"]

/-- Model of `StrongText.getTags`: `return this.#text.getTags(session)`. -/
def StrongText.getTags (c : ChildIface) : List Tag :=
  c.tags

/-- Model of `StrongText.getCachedObjects` (source lines 537–539):
`return []`. -/
def StrongText.getCachedObjects (_c : ChildIface) : List Obj :=
  []

/-- Model of `EmText.getHtml`. -/
def EmText.getHtml (c : ChildIface) : List String :=
  ["<em>"] ++ c.html ++ ["</em>"]

/-- Model of `EmText.getTags`. -/
def EmText.getTags (c : ChildIface) : List Tag :=
  c.tags

/-- Model of `EmText.getCachedObjects` (source lines 579–581): `return []`. -/
def EmText.getCachedObjects (_c : ChildIface) : List Obj :=
  []

/-- Model of `CodeText.getHtml`. -/
def CodeText.getHtml (c : ChildIface) : List String :=
  ["<code>"] ++ c.html ++ ["</code>"]

/-- Model of `CodeText.getTags`. -/
def CodeText.getTags (c : ChildIface) : List Tag :=
  c.tags

/-- Model of `CodeText.getCachedObjects` (source lines 701–703):
`return []`. -/
def CodeText.getCachedObjects (_c : ChildIface) : List Obj :=
  []

/-! ## `LinkText` (source lines 603–672)

The constructor runs `new URL(href)` on a string target, which throws
exactly when the string does not parse as an absolute URL (a URL with a
scheme; the WHATWG parser without a base).  We model the scheme test of that
external parser and keep the input string as the serialisation. -/

/-- A scheme: one ASCII letter followed by letters, digits, `+`, `-`, `.`. -/
def schemeTailChar (c : Char) : Bool :=
  c.isAlpha || c.isDigit || c = '+' || c = '-' || c = '.'

/-- Model of the WHATWG `new URL(s)` success test (no base URL): the input,
after trimming, starts with `scheme ":"`.  On success we keep the input as
the `href` (URL normalisation is irrelevant to the claims below). -/
def parseAbsoluteURL (s : String) : Option Url :=
  match (jsTrim s).data with
  | [] => none
  | c :: rest =>
    if c.isAlpha ∧ ((rest.takeWhile schemeTailChar).length < rest.length ∧
        rest.getD (rest.takeWhile schemeTailChar).length ' ' = ':') then
      some ⟨jsTrim s⟩
    else none

/-- The private fields of a `LinkText` instance. -/
structure LinkText where
  label : ChildIface
  href : Url
deriving DecidableEq, Repr

/-- Model of the `LinkText` constructor (source lines 613–619):
`this.#href = typeof href === "string" ? new URL(href) : href`; a string that
is not an absolute URL makes the constructor throw. -/
def LinkText.new (label : String ⊕ ChildIface) (href : String ⊕ Url) :
    Except Err LinkText :=
  match href with
  | .inr u => .ok ⟨coerceChild label, u⟩
  | .inl s =>
    match parseAbsoluteURL s with
    | some u => .ok ⟨coerceChild label, u⟩
    | none => .error "Invalid URL"

/-- Model of `LinkText.getHtml`. -/
def LinkText.getHtml (l : LinkText) : List String :=
  ["<a href=\"", encode l.href.href, "\" target=\"_blank\">"] ++
    l.label.html ++ ["</a>"]

/-- Model of `LinkText.getTags` (source lines 629–631):
`return this.#label.getTags(session)` — tags come from the label only. -/
def LinkText.getTags (l : LinkText) : List Tag :=
  l.label.tags

/-- Model of `LinkText.getCachedObjects` (source lines 633–635). -/
def LinkText.getCachedObjects (l : LinkText) : List Obj :=
  l.label.cached

/-- Model of the one-argument overload of the `link` function
(source lines 662–672): `new LinkText(String(label), label as string)`.
For a `URL` argument the second parameter is the `URL` object itself, so the
constructor cannot throw; for a string it is the string. -/
def link1 (url : String ⊕ Url) : Except Err LinkText :=
  match url with
  | .inl s => LinkText.new (.inl s) (.inl s)
  | .inr u => LinkText.new (.inl u.href) (.inr u)

/-- Model of the two-argument overload of the `link` function. -/
def link2 (label : String ⊕ ChildIface) (href : String ⊕ Url) :
    Except Err LinkText :=
  LinkText.new label href

/-! ## The `mentions` helper (source lines 94–107)

`mentions(session, text, actor)` returns `false` right away when `actor` is
an `Actor` whose `id` is null — before the `for await` loop ever touches the
tag stream.  Otherwise it scans the tags `text.getTags(session)` yields for a
`Mention` whose `href` equals the identifier.  We model the text tree by its
`getTags` behaviour: a function from its state to the yielded tags, the new
state, and the number of resolver invocations the call triggered. -/

/-- The third argument of `mentions`: an `Actor` object or a URL. -/
inductive ActorOrUrl where
  | actor (a : ActorObj)
  | url (u : Url)
deriving DecidableEq, Repr

/-- The body of the scan in the `mentions` helper:
`tag instanceof Mention && tag.href?.href === actor.href`. -/
def mentionMatches (t : Tag) (href : String) : Bool :=
  match t with
  | .mention _ (some h) => h.href == href
  | _ => false

/-- The scan over the yielded tags. -/
def tagsHaveMention (tags : List Tag) (href : String) : Bool :=
  tags.any fun t => mentionMatches t href

/-- Model of the `mentions` helper over an arbitrary text tree with state
type `σ` and `getTags` behaviour `T`.  Returns the boolean result, the state
of the tree afterwards, and how many resolver invocations were triggered. -/
def mentions {σ : Type} (T : σ → List Tag × σ × Nat) (s : σ)
    (actor : ActorOrUrl) : Bool × σ × Nat :=
  match actor with
  | .actor a =>
    match a.id with
    | none => (false, s, 0)
    | some i =>
      match T s with
      | (tags, s1, n) => (tagsHaveMention tags i.href, s1, n)
  | .url u =>
    match T s with
    | (tags, s1, n) => (tagsHaveMention tags u.href, s1, n)

/-! ## `MarkdownText` (source lines 784–979)

The external markdown-it parser, configured with the plugins the options
select, is modelled abstractly: `discoverM`/`discoverH` give the
`env.mentions`/`env.hashtags` lists a discovery render populates for a given
content, and `renderHtml` gives the rendered HTML for a content and an
optional env (the mentions-disabled branch calls `render(content)` with no
env).  A resolution environment `lookup` fixes, per session, the object each
handle lookup would produce (`null` = failed lookup; the bot's own handle
resolving through `session.getActor()` is one of its entries). -/

/-- The `env` record handed to a real (non-discovery) render: the session
origin and the handle → URL projection. -/
structure MarkdownEnv where
  origin : String
  actors : List (String × String)
deriving DecidableEq, Repr

/-- The abstract configured markdown-it instance. -/
structure MarkdownIt where
  discoverM : String → List String
  discoverH : String → List String
  renderHtml : String → Option MarkdownEnv → String

/-- The options record, defaults all true (source lines 784–802). -/
structure MarkdownTextOptions where
  mentions : Bool := true
  hashtags : Bool := true
  linkify : Bool := true
deriving DecidableEq, Repr

/-- The fields of a `MarkdownText` instance. -/
structure MarkdownText where
  content : String
  md : MarkdownIt
  mentionsList : Option (List String)
  hashtagsList : Option (List String)
  actors : Option (List (String × Obj))

/-- Model of the `MarkdownText` constructor (source lines 828–884): one
discovery parse per enabled extension records the discovered handle and
hashtag token lists; no resolution happens (`#actors` stays unset). -/
def MarkdownText.new (opts : MarkdownTextOptions) (md : MarkdownIt)
    (content : String) : MarkdownText :=
  { content, md,
    mentionsList := if opts.mentions then some (md.discoverM content) else none,
    hashtagsList := if opts.hashtags then some (md.discoverH content) else none,
    actors := none }

/-- JavaScript object-property assignment `actors[handle] = object`:
overwrite in place if the key exists, otherwise append (string-keyed JS
objects preserve first-insertion order). -/
def insertActor (m : List (String × Obj)) (k : String) (v : Obj) :
    List (String × Obj) :=
  if m.any (fun p => p.1 == k) then
    m.map fun p => if p.1 == k then (k, v) else p
  else m ++ [(k, v)]

/-- The record built from the lookup results (source lines 899–903):
`if (object != null) actors[this.#mentions[i]] = object`. -/
def buildActors (lookup : String → Option Obj) (ms : List String) :
    List (String × Obj) :=
  ms.foldl (fun acc h =>
    match lookup h with
    | some o => insertActor acc h o
    | none => acc) []

/-- Model of `MarkdownText.#getMentionedActors` (source lines 886–906):
`{}` when mentions are disabled; otherwise the memoised record, populated on
first use from one lookup per discovered handle. -/
def MarkdownText.getMentionedActors (lookup : String → Option Obj)
    (st : MarkdownText) : List (String × Obj) × MarkdownText :=
  match st.mentionsList with
  | none => ([], st)
  | some ms =>
    match st.actors with
    | some a => (a, st)
    | none =>
      let a := buildActors lookup ms
      (a, { st with actors := some a })

/-- The handle → URL projection of `MarkdownText.getHtml`
(source lines 913–926): keep actors only, pick `url ?? id`, drop entries
with neither. -/
def actorUrlProjection (actors : List (String × Obj)) :
    List (String × String) :=
  actors.filterMap fun p =>
    match p.2 with
    | .actor a =>
      match a.url with
      | some u => some (p.1, u.href)
      | none =>
        match a.id with
        | some i => some (p.1, i.href)
        | none => none
    | .other _ => none

/-- Model of `MarkdownText.getHtml` (source lines 908–934). -/
def MarkdownText.getHtml (lookup : String → Option Obj) (origin : String)
    (st : MarkdownText) : List String × MarkdownText :=
  match st.mentionsList with
  | none => ([st.md.renderHtml st.content none], st)
  | some _ =>
    match st.getMentionedActors lookup with
    | (actors, st1) =>
      ( [st1.md.renderHtml st1.content
          (some { origin, actors := actorUrlProjection actors })],
        st1 )

/-- Model of `MarkdownText.getTags` (source lines 936–958).  Note the early
return: when the mentions extension is disabled (`#mentions` unset) the
generator yields nothing at all, hashtags included. -/
def MarkdownText.getTags (lookup : String → Option Obj) (origin : String)
    (st : MarkdownText) : List Tag × MarkdownText :=
  match st.mentionsList with
  | none => ([], st)
  | some _ =>
    match st.getMentionedActors lookup with
    | (actors, st1) =>
      let mentionTags := actors.filterMap fun p =>
        match p.2 with
        | .actor a =>
          match a.id with
          | some i => some (Tag.mention p.1 (some i))
          | none => none
        | .other _ => none
      let hashtagTags := match st1.hashtagsList with
        | none => []
        | some hs => hs.map fun h =>
            Tag.hashtag ("#" ++ jsToLower (substringFrom1 h))
              ⟨origin ++ "/tags/" ++
                encodeURIComponent (jsToLower (substringFrom1 h))⟩
      (mentionTags ++ hashtagTags, st1)

/-- Model of `MarkdownText.getCachedObjects` (source lines 960–962). -/
def MarkdownText.getCachedObjects (st : MarkdownText) : List Obj :=
  match st.actors with
  | none => []
  | some a => a.map Prod.snd

/-- The HTML of invoking the configured parser's `render` directly on the
source content (the reference side of the refinement claim about a markdown
node with mentions disabled). -/
def directParserRender (md : MarkdownIt) (content : String) : String :=
  md.renderHtml content none

/-! ## `TemplatedText` (source lines 115–191)

`getHtml` splits each literal segment with
`split(/([ \t]*\r?\n){2,}/g)`.  JavaScript `String.prototype.split` with a
regular expression containing a capturing group interleaves the captured
text (here: the last repetition of `[ \t]*\r?\n` of each matched blank-line
boundary, a whitespace-only string) into the result array; the model below
reproduces that.  Each repetition `[ \t]*\r?\n` matches deterministically
(maximal run of spaces/tabs, an optional `\r`, then a mandatory `\n`), the
`{2,}` quantifier is greedy, and the split scans left to right.  The rests
returned by the matchers carry the proof that at least one character was
consumed, which drives the termination of the scanner. -/

/-- One repetition of `[ \t]*\r?\n` at the head of `cs`: returns the
consumed text and the rest.  Each repetition matches deterministically: the
maximal run of spaces/tabs, an optional `\r`, then a mandatory `\n`. -/
def matchRep (cs : List Char) : Option (List Char × List Char) :=
  let sp := cs.takeWhile fun c => c = ' ' || c = '\t'
  match cs.dropWhile fun c => c = ' ' || c = '\t' with
  | '\r' :: '\n' :: rest2 => some (sp ++ ['\r', '\n'], rest2)
  | '\n' :: rest2 => some (sp ++ ['\n'], rest2)
  | _ => none

/-- Greedy `(…)+`: as many repetitions as possible (at least one); returns
the text of the last repetition (the regex capture) and the rest.  Every
repetition consumes at least one character, so fuel `cs.length` never runs
out. -/
def matchRepsGreedy : Nat → List Char → Option (List Char × List Char)
  | 0, _ => none
  | fuel + 1, cs =>
    match matchRep cs with
    | none => none
    | some (r1, rest1) =>
      match matchRepsGreedy fuel rest1 with
      | none => some (r1, rest1)
      | some r => some r

/-- A whole match of `([ \t]*\r?\n){2,}` at the head of `cs`: two or more
repetitions, greedy; returns the capture (the last repetition) and the
rest. -/
def matchBoundary (cs : List Char) : Option (List Char × List Char) :=
  match matchRep cs with
  | none => none
  | some (_, rest1) =>
    match matchRepsGreedy rest1.length rest1 with
    | none => none
    | some (cap, rest2) => some (cap, rest2)

/-- The left-to-right scan of `split(/([ \t]*\r?\n){2,}/g)`: `pending`
holds the (reversed) characters of the piece read so far.  Every step
consumes at least one character, so fuel `cs.length` never runs out. -/
def splitParasAux : Nat → List Char → List Char → List String
  | _, pending, [] => [String.mk pending.reverse]
  | 0, pending, cs => [String.mk (pending.reverse ++ cs)]
  | fuel + 1, pending, cs =>
    match matchBoundary cs with
    | some (cap, rest) =>
      String.mk pending.reverse :: String.mk cap :: splitParasAux fuel [] rest
    | none =>
      match cs with
      | [] => [String.mk pending.reverse]
      | c :: rest => splitParasAux fuel (c :: pending) rest

/-- Model of `this.#strings[i].split(/([ \t]*\r?\n){2,}/g)`. -/
def splitParas (s : String) : List String :=
  splitParasAux s.data.length [] s.data

/-- The lines loop of `TemplatedText.getHtml` (source lines 147–158): `l`
counts the non-blank lines already rendered in this paragraph chunk, the
boolean is `paraState === "opened"`. -/
def renderLines : List String → Nat → Bool → List String × Bool
  | [], _, opened => ([], opened)
  | line :: rest, l, opened =>
    if jsBlank line then renderLines rest l opened
    else
      let pre := if l < 1 ∧ opened = false then ["<p>"] else []
      let opened1 := if l < 1 ∧ opened = false then true else opened
      let br := if l > 0 then ["<br>"] else []
      let r := renderLines rest (l + 1) opened1
      (pre ++ br ++ [encode line] ++ r.1, r.2)

/-- The paragraphs loop of `TemplatedText.getHtml` (source lines 140–160):
`p` counts the pieces of the split already processed; before each piece
after the first, a still-open paragraph is closed. -/
def renderParas : List String → Nat → Bool → List String × Bool
  | [], _, opened => ([], opened)
  | para :: rest, p, opened =>
    let close := if 0 < p ∧ opened = true then ["</p>"] else []
    let opened0 := if 0 < p ∧ opened = true then false else opened
    let r1 := renderLines (splitNl para) 0 opened0
    let r2 := renderParas rest (p + 1) r1.2
    (close ++ r1.1 ++ r2.1, r2.2)

/-- An interpolated child as `TemplatedText.getHtml` observes it: its
`type` (`"block"` or `"inline"`) and the chunks its own `getHtml` yields for
the session of the call. -/
structure ChildR where
  isBlock : Bool
  html : List String
deriving DecidableEq, Repr

/-- The main loop of `TemplatedText.getHtml` (source lines 139–172): literal
segments alternate with children; before a block child an open paragraph is
closed, before an inline child a paragraph is opened if none is open. -/
def TemplatedText.getHtmlAux :
    List String → List ChildR → Bool → List String × Bool
  | [], _, opened => ([], opened)
  | seg :: srest, values, opened =>
    let r1 := renderParas (splitParas seg) 0 opened
    match values with
    | [] =>
      let r2 := TemplatedText.getHtmlAux srest [] r1.2
      (r1.1 ++ r2.1, r2.2)
    | v :: vrest =>
      let close := if v.isBlock ∧ r1.2 = true then ["</p>"] else []
      let openP := if v.isBlock = false ∧ r1.2 = false then ["<p>"] else []
      let opened2 :=
        if v.isBlock ∧ r1.2 = true then false
        else if v.isBlock = false ∧ r1.2 = false then true
        else r1.2
      let r2 := TemplatedText.getHtmlAux srest vrest opened2
      (r1.1 ++ close ++ openP ++ v.html ++ r2.1, r2.2)

/-- Model of `TemplatedText.getHtml` (source lines 137–174): run the main
loop from the `"closed"` state and close any still-open paragraph at the
end. -/
def TemplatedText.getHtml (strings : List String) (values : List ChildR) :
    List String :=
  let r := TemplatedText.getHtmlAux strings values false
  r.1 ++ if r.2 then ["</p>"] else []

/-! ### Paragraph-marker bookkeeping for the balance claim

The engine yields each `<p>` and `</p>` as a standalone chunk, and encoded
literal text cannot contain `<`; marker counting is therefore done at chunk
granularity. -/

/-- The marker delta of one chunk: `+1` for `<p>`, `-1` for `</p>`. -/
def mDelta (c : String) : Int :=
  if c = "<p>" then 1 else if c = "</p>" then -1 else 0

/-- Sum of marker deltas of a chunk list. -/
def mSum (l : List String) : Int :=
  (l.map mDelta).sum

/-- Well-nested, non-nesting paragraphs: every prefix has at least as many
opens as closes and at most one excess open, and the totals agree. -/
def wellNested (l : List String) : Prop :=
  mSum l = 0 ∧ ∀ n : Nat, 0 ≤ mSum (l.take n) ∧ mSum (l.take n) ≤ 1

/-- A chunk list with no paragraph markers at all (what an inline child is
allowed to yield). -/
def markerFree (l : List String) : Prop :=
  ∀ c ∈ l, mDelta c = 0

/-- A paragraph piece has renderable content: some line of it is not
whitespace-only. -/
def hasContent (para : String) : Bool :=
  (splitNl para).any fun ln => !jsBlank ln

/-- The open-paragraph depth a paragraph state contributes. -/
def stateVal (b : Bool) : Int :=
  if b then 1 else 0

/-- The marker invariant of an engine segment: starting from paragraph state
`b` and ending in state `b2`, the markers of `out` move the depth from
`stateVal b` to `stateVal b2` and keep it between 0 and 1 throughout. -/
def goodSeg (out : List String) (b b2 : Bool) : Prop :=
  mSum out = stateVal b2 - stateVal b ∧
  ∀ n : Nat, 0 ≤ stateVal b + mSum (out.take n) ∧
    stateVal b + mSum (out.take n) ≤ 1

/-! ## Remaining auxiliary definitions for the theorems below -/

/-- How many label-resolver invocations a `MentionText` state can still
perform over its whole lifetime (1 before the memo slot of a deferred label
is filled, 0 afterwards and for literal labels). -/
def labelBudget (s : MentionText) : Nat :=
  match s.label, s.labelPromise with
  | .deferred, none => 1
  | _, _ => 0

/-- How many actor-resolver invocations a `MentionText` state can still
perform. -/
def actorBudget (s : MentionText) : Nat :=
  match s.actor, s.actorPromise with
  | .deferred, none => 1
  | _, _ => 0

/-- One `Mention` per record entry whose object is an actor with a non-null
id (the mention half of `MarkdownText.getTags`). -/
def mentionTagsOf (actors : List (String × Obj)) : List Tag :=
  actors.filterMap fun p =>
    match p.2 with
    | .actor a =>
      match a.id with
      | some i => some (Tag.mention p.1 (some i))
      | none => none
    | .other _ => none

/-- The `Hashtag` built for one discovered token (the hashtag half of
`MarkdownText.getTags`). -/
def hashtagTagOf (origin : String) (h : String) : Tag :=
  Tag.hashtag ("#" ++ jsToLower (substringFrom1 h))
    ⟨origin ++ "/tags/" ++ encodeURIComponent (jsToLower (substringFrom1 h))⟩

/-- A sample actor used by concrete counterexamples and witnesses. -/
def sampleActor : ActorObj :=
  { id := some ⟨"https://example.com/users/alice"⟩, url := none }

/-- A resolution environment whose actor lookup returns `null`. -/
def envNull : ResolveEnv :=
  { labelRes := .ok "@alice@example.com", actorRes := .ok none }

/-- A resolution environment whose actor lookup throws. -/
def envBoom : ResolveEnv :=
  { labelRes := .ok "@alice@example.com", actorRes := .error "boom" }

/-- A sample wrapped child carrying one cached object. -/
def sampleChild : ChildIface :=
  { html := [], tags := [], cached := [Obj.actor sampleActor] }

/-- A sample configured parser whose discovery pass finds one hashtag token
and no mention handles. -/
def mdHashOnly : MarkdownIt :=
  { discoverM := fun _ => [],
    discoverH := fun _ => ["#foo"],
    renderHtml := fun content _ => content }

/-- A lookup in which every handle fails to resolve. -/
def noLookup : String → Option Obj :=
  fun _ => none

/-! # Theorems -/

/-! ## Memoisation of the mention slots (claim C1) -/

/-- `#getLabel` spends at most the remaining label budget and leaves the
actor slot untouched. -/
theorem getLabel_spec (env : ResolveEnv) (s : MentionText) :
    (s.getLabel env).2.2 + labelBudget (s.getLabel env).2.1 ≤ labelBudget s ∧
    actorBudget (s.getLabel env).2.1 = actorBudget s := by
  cases h1 : s.label <;> cases h2 : s.labelPromise <;>
    simp [MentionText.getLabel, labelBudget, actorBudget, h1, h2]

theorem getActor_spec (env : ResolveEnv) (s : MentionText) :
    (s.getActor env).2.2 + actorBudget (s.getActor env).2.1 ≤ actorBudget s ∧
    labelBudget (s.getActor env).2.1 = labelBudget s := by
  cases h1 : s.actor <;> cases h2 : s.actorPromise <;>
    simp [MentionText.getActor, labelBudget, actorBudget, h1, h2]

theorem run1_budget (env : ResolveEnv) (op : MentionOp) (s : MentionText) :
    (s.run1 env op).2.1 + labelBudget (s.run1 env op).1 ≤ labelBudget s ∧
    (s.run1 env op).2.2 + actorBudget (s.run1 env op).1 ≤ actorBudget s := by
  obtain ⟨hL1, hL2⟩ := getLabel_spec env s
  cases op with
  | cached => simp [MentionText.run1]
  | html =>
    simp only [MentionText.run1, MentionText.getHtml]
    split
    next e s1 lc heq =>
      rw [heq] at hL1 hL2
      simp at hL1 hL2
      constructor <;> simp <;> omega
    next label s1 lc heq =>
      rw [heq] at hL1 hL2
      simp at hL1 hL2
      obtain ⟨hA1, hA2⟩ := getActor_spec env s1
      split
      next e s2 ac heq2 =>
        rw [heq2] at hA1 hA2
        simp at hA1 hA2
        constructor <;> simp <;> omega
      next actor s2 ac heq2 =>
        rw [heq2] at hA1 hA2
        simp at hA1 hA2
        split <;> constructor <;> simp <;> omega
  | tags =>
    simp only [MentionText.run1, MentionText.getTags]
    split
    next e s1 lc heq =>
      rw [heq] at hL1 hL2
      simp at hL1 hL2
      constructor <;> simp <;> omega
    next label s1 lc heq =>
      rw [heq] at hL1 hL2
      simp at hL1 hL2
      obtain ⟨hA1, hA2⟩ := getActor_spec env s1
      split
      next e s2 ac heq2 =>
        rw [heq2] at hA1 hA2
        simp at hA1 hA2
        constructor <;> simp <;> omega
      next actor s2 ac heq2 =>
        rw [heq2] at hA1 hA2
        simp at hA1 hA2
        split <;> constructor <;> simp <;> omega

/-- A whole operation sequence spends at most the remaining budgets. -/
theorem runOps_budget (env : ResolveEnv) (ops : List MentionOp) (s : MentionText) :
    (MentionText.runOps env ops s).2.1 +
        labelBudget (MentionText.runOps env ops s).1 ≤ labelBudget s ∧
    (MentionText.runOps env ops s).2.2 +
        actorBudget (MentionText.runOps env ops s).1 ≤ actorBudget s := by
  induction ops generalizing s with
  | nil => simp [MentionText.runOps]
  | cons op rest ih =>
    have h1 := run1_budget env op s
    have h2 := ih (s.run1 env op).1
    simp only [MentionText.runOps]
    constructor <;> omega

/-- **C1.**  For every `MentionText` node, each lazy slot (label, actor) is
resolved at most once per node instance: over any sequence of `getHtml`,
`getTags` and `getCachedObjects` calls against a fixed session, starting
from a freshly constructed node, the label resolver and the actor resolver
are each invoked at most once; later calls in any order reuse the stored
settled promise.  (JavaScript is single threaded and the code stores the
in-flight promise in the memo slot synchronously with the resolver
invocation, so sequences of completed operations cover every interleaving
of overlapping callers.) -/
theorem mention_resolver_at_most_once (label : LabelSrc) (actor : ActorSrc)
    (env : ResolveEnv) (ops : List MentionOp) :
    (MentionText.runOps env ops (MentionText.new label actor)).2.1 ≤ 1 ∧
    (MentionText.runOps env ops (MentionText.new label actor)).2.2 ≤ 1 := by
  have h := runOps_budget env ops (MentionText.new label actor)
  have hl : labelBudget (MentionText.new label actor) ≤ 1 := by
    cases label <;> simp [labelBudget, MentionText.new]
  have ha : actorBudget (MentionText.new label actor) ≤ 1 := by
    cases actor <;> simp [actorBudget, MentionText.new]
  omega


/-! ## Mention resolution failure (claim C4) -/

/-- **C4, counterexample.**  The claim states that no error propagates out of
`getHtml` or `getTags` when the actor lookup throws; on a concrete node whose
deferred actor resolver rejects with `"boom"`, both calls propagate exactly
that rejection. -/
theorem mention_error_propagates :
    ((MentionText.new (.lit "@alice") .deferred).getHtml envBoom).1 =
      .error "boom" ∧
    ((MentionText.new (.lit "@alice") .deferred).getTags envBoom).1 =
      .error "boom" := by
  constructor <;> rfl

/-- **C4, amended.**  For every `MentionText` node whose actor lookup returns
`null`, `getHtml` yields only the escaped label with no anchor markup and
`getTags` yields zero Mention tags, and no error propagates; when the lookup
throws, however, the rejection propagates unchanged out of both `getHtml` and
`getTags`. -/
theorem mention_resolution_failure (label : String) :
    (∀ env : ResolveEnv, env.actorRes = .ok none →
      ((MentionText.new (.lit label) .deferred).getHtml env).1 =
        .ok [encode label] ∧
      ((MentionText.new (.lit label) .deferred).getTags env).1 = .ok []) ∧
    (∀ (env : ResolveEnv) (e : Err), env.actorRes = .error e →
      ((MentionText.new (.lit label) .deferred).getHtml env).1 = .error e ∧
      ((MentionText.new (.lit label) .deferred).getTags env).1 = .error e) := by
  constructor
  · intro env h
    constructor <;>
      simp [MentionText.new, MentionText.getHtml, MentionText.getTags,
        MentionText.getLabel, MentionText.getActor, h, mentionUrl]
  · intro env e h
    constructor <;>
      simp [MentionText.new, MentionText.getHtml, MentionText.getTags,
        MentionText.getLabel, MentionText.getActor, h]

/-- **C4, witness.**  The amended theorem applied to a concrete node whose
lookup returns `null`. -/
theorem mention_resolution_failure_witness :
    ((MentionText.new (.lit "@alice") .deferred).getHtml envNull).1 =
      .ok [encode "@alice"] ∧
    ((MentionText.new (.lit "@alice") .deferred).getTags envNull).1 = .ok [] :=
  (mention_resolution_failure "@alice").1 envNull rfl

/-! ## Hashtag casing (claim C5) -/

/-- **C5.**  A `HashtagText` built from `"  Foo Bar  "` renders a visible
label preserving the original casing (`"Foo Bar"` is yielded verbatim inside
`#<span>…</span>`), while the URL path segment of the emitted anchor is
`"foo%20bar"` — the lowercase segment `encodeURIComponent` derives from
`"foo bar"` — and contains no uppercase letter. -/
theorem hashtag_case_spec (origin : String) :
    HashtagText.mk "  Foo Bar  " = "Foo Bar" ∧
    HashtagText.getHtml origin (HashtagText.mk "  Foo Bar  ") =
      ["<a href=\"", encode origin, "/tags/", "foo%20bar",
       "\" class=\"mention hashtag\" rel=\"tag\" target=\"_blank\">#<span>",
       "Foo Bar", "</span></a>"] ∧
    "foo%20bar" = encodeURIComponent (jsToLower "foo bar") ∧
    (∀ c ∈ ("foo%20bar").data, c.isUpper = false) := by
  have h1 : HashtagText.mk "  Foo Bar  " = "Foo Bar" := by decide
  have h2 : encode (encodeURIComponent (jsToLower "Foo Bar")) = "foo%20bar" := by
    decide
  refine ⟨h1, ?_, by decide, by decide⟩
  rw [h1]
  simp [HashtagText.getHtml, h2]

/-! ## Decorator forwarding (claim C6) -/

/-- **C6, counterexample.**  The claim states that the decorators forward
`getCachedObjects` to the wrapped child; on a concrete child carrying one
cached object, `StrongText`, `EmText` and `CodeText` all answer the empty
collection instead. -/
theorem decorators_cache_not_forwarded :
    StrongText.getCachedObjects sampleChild ≠ sampleChild.cached ∧
    EmText.getCachedObjects sampleChild ≠ sampleChild.cached ∧
    CodeText.getCachedObjects sampleChild ≠ sampleChild.cached := by
  refine ⟨?_, ?_, ?_⟩ <;> simp [StrongText.getCachedObjects,
    EmText.getCachedObjects, CodeText.getCachedObjects, sampleChild]

/-- **C6, amended.**  For every `StrongText`, `EmText` and `CodeText`
decorator, `getTags` yields exactly the wrapped child's tags (the query is
forwarded unchanged), but `getCachedObjects` always returns the empty
collection rather than the child's. -/
theorem decorators_forward_tags_only (c : ChildIface) :
    StrongText.getTags c = c.tags ∧
    EmText.getTags c = c.tags ∧
    CodeText.getTags c = c.tags ∧
    StrongText.getCachedObjects c = [] ∧
    EmText.getCachedObjects c = [] ∧
    CodeText.getCachedObjects c = [] :=
  ⟨rfl, rfl, rfl, rfl, rfl, rfl⟩

/-! ## Cached objects before resolution (claim C7) -/

/-- **C7, counterexample.**  The claim states that a freshly constructed node
on which neither `getHtml` nor `getTags` was invoked has no cached objects;
a `MentionText` constructed with a literal actor already caches that actor at
construction. -/
theorem fresh_literal_mention_has_cache :
    (MentionText.new (.lit "@alice@example.com")
        (.lit sampleActor)).getCachedObjects = [Obj.actor sampleActor] ∧
    (MentionText.new (.lit "@alice@example.com")
        (.lit sampleActor)).getCachedObjects ≠ [] := by
  constructor
  · rfl
  · simp [MentionText.new, MentionText.getCachedObjects]

/-- **C7, amended.**  `getCachedObjects` never itself triggers resolution
(on a mention node it is a pure read that leaves the state unchanged and
invokes no resolver), and a freshly constructed node has no cached objects —
except a `MentionText` constructed with a literal actor, which caches that
actor at construction time. -/
theorem getCachedObjects_is_pure_read :
    (∀ (env : ResolveEnv) (s : MentionText),
      MentionText.run1 env .cached s = (s, 0, 0)) ∧
    (∀ label : LabelSrc,
      (MentionText.new label .deferred).getCachedObjects = []) ∧
    (∀ (label : LabelSrc) (a : ActorObj),
      (MentionText.new label (.lit a)).getCachedObjects = [Obj.actor a]) ∧
    (∀ (opts : MarkdownTextOptions) (md : MarkdownIt) (content : String),
      (MarkdownText.new opts md content).getCachedObjects = []) ∧
    (∀ c : ChildIface, StrongText.getCachedObjects c = [] ∧
      EmText.getCachedObjects c = [] ∧ CodeText.getCachedObjects c = []) := by
  refine ⟨fun env s => rfl, fun label => rfl, fun label a => rfl,
    fun opts md content => rfl, fun c => ⟨rfl, rfl, rfl⟩⟩

/-! ## Link construction (claim C8) -/

/-- **C8.**  Constructing a `LinkText` with a string target that is not an
absolute URL (the WHATWG parser finds no scheme) throws at construction
time; construction with an absolute URL succeeds, `getTags` forwards tag
extraction from the label only, and the single-argument `link` overload with
a `URL` object always succeeds. -/
theorem link_absolute_url (label : String ⊕ ChildIface) (s : String) :
    (parseAbsoluteURL s = none →
      LinkText.new label (.inl s) = .error "Invalid URL") ∧
    (∀ u : Url, parseAbsoluteURL s = some u →
      LinkText.new label (.inl s) = .ok ⟨coerceChild label, u⟩) ∧
    (∀ l : LinkText, LinkText.getTags l = l.label.tags) ∧
    (∀ u : Url, link1 (.inr u) = .ok ⟨plainChild u.href, u⟩) := by
  refine ⟨?_, ?_, fun l => rfl, fun u => rfl⟩
  · intro h
    simp [LinkText.new, h]
  · intro u h
    simp [LinkText.new, h]

/-- **C8, witness.**  The theorem applied to a concrete relative path (the
constructor throws) and a concrete absolute URL (it succeeds and forwards
tags from the label). -/
theorem link_absolute_url_witness :
    LinkText.new (.inl "here") (.inl "/relative/path") = .error "Invalid URL" ∧
    LinkText.new (.inl "here") (.inl "https://example.com/") =
      .ok ⟨coerceChild (.inl "here"), ⟨"https://example.com/"⟩⟩ ∧
    LinkText.getTags ⟨coerceChild (.inl "here"), ⟨"https://example.com/"⟩⟩ =
      (coerceChild (.inl "here")).tags := by
  refine ⟨(link_absolute_url (.inl "here") "/relative/path").1 (by decide),
    (link_absolute_url (.inl "here") "https://example.com/").2.1
      ⟨"https://example.com/"⟩ (by decide),
    (link_absolute_url (.inl "here") "https://example.com/").2.2.1 _⟩

/-! ## The `mentions` helper (claim C10) -/

/-- **C10.**  For every session, text tree and `Actor` argument whose id is
null, the `mentions` helper returns `false` without consuming the tree's tag
stream (the state is unchanged and no resolver runs); for an `Actor` with a
non-null id or a `URL` argument, it returns `true` iff some extracted tag is
a Mention whose href equals that identifier's href. -/
theorem mentions_helper_spec {σ : Type} (T : σ → List Tag × σ × Nat) (s : σ) :
    (∀ a : ActorObj, a.id = none → mentions T s (.actor a) = (false, s, 0)) ∧
    (∀ (a : ActorObj) (i : Url), a.id = some i →
      ((mentions T s (.actor a)).1 = true ↔
        ∃ t ∈ (T s).1, mentionMatches t i.href = true)) ∧
    (∀ u : Url,
      ((mentions T s (.url u)).1 = true ↔
        ∃ t ∈ (T s).1, mentionMatches t u.href = true)) := by
  refine ⟨?_, ?_, ?_⟩
  · intro a h
    simp [mentions, h]
  · intro a i h
    simp only [mentions, h]
    rcases T s with ⟨tags, s1, n⟩
    simp [tagsHaveMention, List.any_eq_true]
  · intro u
    simp only [mentions]
    rcases T s with ⟨tags, s1, n⟩
    simp [tagsHaveMention, List.any_eq_true]

/-- **C10, witness.**  The theorem applied to a concrete one-tag stream: a
null-id actor yields `false` with untouched state, and the sample actor's id
is found. -/
theorem mentions_helper_witness :
    mentions (fun u : Unit => ([Tag.mention "@alice@example.com"
        (some ⟨"https://example.com/users/alice"⟩)], u, 0)) ()
      (.actor ⟨none, none⟩) = (false, (), 0) ∧
    (mentions (fun u : Unit => ([Tag.mention "@alice@example.com"
        (some ⟨"https://example.com/users/alice"⟩)], u, 0)) ()
      (.actor sampleActor)).1 = true := by
  constructor
  · exact (mentions_helper_spec _ ()).1 ⟨none, none⟩ rfl
  · refine ((mentions_helper_spec _ ()).2.1 sampleActor
      ⟨"https://example.com/users/alice"⟩ rfl).2 ?_
    exact ⟨Tag.mention "@alice@example.com"
      (some ⟨"https://example.com/users/alice"⟩), by simp, by decide⟩

/-! ## Markdown with mentions disabled (claim C9) -/

/-- **C9.**  For every `MarkdownText` node constructed with the mentions
option off, and every session, `getHtml` yields exactly the output of
invoking the configured external parser's `render` directly on the same
source content (no env, no resolution), leaving the node's state
unchanged. -/
theorem markdown_mentions_off_direct (opts : MarkdownTextOptions)
    (md : MarkdownIt) (content : String) (lookup : String → Option Obj)
    (origin : String) (h : opts.mentions = false) :
    (MarkdownText.new opts md content).getHtml lookup origin =
      ([directParserRender md content], MarkdownText.new opts md content) := by
  simp [MarkdownText.new, MarkdownText.getHtml, directParserRender, h]

/-- **C9, witness.**  The theorem applied to a concrete parser, content and
session. -/
theorem markdown_mentions_off_direct_witness :
    (MarkdownText.new ⟨false, true, true⟩ mdHashOnly "#foo hello").getHtml
        noLookup "https://example.com" =
      ([directParserRender mdHashOnly "#foo hello"],
        MarkdownText.new ⟨false, true, true⟩ mdHashOnly "#foo hello") :=
  markdown_mentions_off_direct ⟨false, true, true⟩ mdHashOnly "#foo hello"
    noLookup "https://example.com" rfl

/-! ## Markdown tag extraction (claim C3) -/

/-- JavaScript object-assignment membership: inserting `k ↦ v` into a record
whose entry for `k` (if any) already equals `v`. -/
theorem insertActor_mem (m : List (String × Obj)) (k : String) (v : Obj)
    (hv : ∀ p ∈ m, ∀ w, p.1 = k → p.2 = w → w = v) (h2 : String) (o : Obj) :
    ((h2, o) ∈ insertActor m k v ↔ ((h2, o) ∈ m ∨ (h2 = k ∧ o = v))) := by
  unfold insertActor
  split
  next hmem =>
    simp only [List.any_eq_true, beq_iff_eq] at hmem
    obtain ⟨p, hp, hpk⟩ := hmem
    constructor
    · intro hin
      rw [List.mem_map] at hin
      obtain ⟨q, hq, hqe⟩ := hin
      by_cases hk : q.1 = k
      · simp [hk] at hqe
        right
        exact ⟨hqe.1.symm ▸ rfl, hqe.2.symm ▸ rfl⟩
      · simp [hk] at hqe
        left
        exact hqe ▸ hq
    · intro hin
      rw [List.mem_map]
      rcases hin with hin | ⟨hk, ho⟩
      · by_cases hk : h2 = k
        · have := hv (h2, o) hin o hk rfl
          exact ⟨(h2, o), hin, by simp [hk, this]⟩
        · exact ⟨(h2, o), hin, by simp [hk]⟩
      · have hpv := hv p hp p.2 hpk rfl
        refine ⟨p, hp, ?_⟩
        simp [hpk, hk, ho, hpv]
  next =>
    simp

theorem buildActors_aux_mem (lookup : String → Option Obj) (ms : List String)
    (acc : List (String × Obj))
    (hacc : ∀ p ∈ acc, lookup p.1 = some p.2) (h : String) (o : Obj) :
    ((h, o) ∈ ms.foldl (fun acc h =>
        match lookup h with
        | some o => insertActor acc h o
        | none => acc) acc ↔
      ((h, o) ∈ acc ∨ (h ∈ ms ∧ lookup h = some o))) := by
  induction ms generalizing acc with
  | nil => simp
  | cons m rest ih =>
    simp only [List.foldl_cons]
    cases hm : lookup m with
    | none =>
      rw [ih acc hacc]
      constructor
      · rintro (hin | ⟨hms, hlk⟩)
        · exact Or.inl hin
        · exact Or.inr ⟨List.mem_cons_of_mem _ hms, hlk⟩
      · rintro (hin | ⟨hms, hlk⟩)
        · exact Or.inl hin
        · rcases List.mem_cons.1 hms with rfl | hms2
          · rw [hm] at hlk; exact absurd hlk (by simp)
          · exact Or.inr ⟨hms2, hlk⟩
    | some v =>
      have hacc2 : ∀ p ∈ insertActor acc m v, lookup p.1 = some p.2 := by
        intro p hp
        have := (insertActor_mem acc m v ?_ p.1 p.2).1 (by simpa using hp)
        · rcases this with hin | ⟨h1, h2⟩
          · exact hacc _ hin
          · rw [h1, h2, hm]
        · intro q hq w hqk hqw
          have := hacc q hq
          rw [hqk, hm] at this
          rw [← hqw, Option.some_inj.1 this]
      rw [ih _ hacc2]
      have hins := insertActor_mem acc m v ?_ h o
      · rw [hins]
        constructor
        · rintro ((hin | ⟨rfl, rfl⟩) | ⟨hms, hlk⟩)
          · exact Or.inl hin
          · exact Or.inr ⟨List.mem_cons_self _ _, hm⟩
          · exact Or.inr ⟨List.mem_cons_of_mem _ hms, hlk⟩
        · rintro (hin | ⟨hms, hlk⟩)
          · exact Or.inl (Or.inl hin)
          · rcases List.mem_cons.1 hms with rfl | hms2
            · rw [hm] at hlk
              exact Or.inl (Or.inr ⟨rfl, (Option.some_inj.1 hlk).symm⟩)
            · exact Or.inr ⟨hms2, hlk⟩
      · intro q hq w hqk hqw
        have := hacc q hq
        rw [hqk, hm] at this
        rw [← hqw, Option.some_inj.1 this]

/-- Membership in the resolved-handle record: a handle maps to an object
exactly when it was discovered and its lookup produced that object. -/
theorem buildActors_mem (lookup : String → Option Obj) (ms : List String)
    (h : String) (o : Obj) :
    ((h, o) ∈ buildActors lookup ms ↔ (h ∈ ms ∧ lookup h = some o)) := by
  rw [buildActors, buildActors_aux_mem lookup ms [] (by simp)]
  simp

/-- `insertActor` never duplicates a key. -/
theorem insertActor_keys_nodup (m : List (String × Obj)) (k : String) (v : Obj)
    (h : (m.map Prod.fst).Nodup) :
    ((insertActor m k v).map Prod.fst).Nodup := by
  unfold insertActor
  split
  next hmem =>
    have heq : (m.map fun p => if p.1 == k then (k, v) else p).map Prod.fst =
        m.map Prod.fst := by
      rw [List.map_map]
      apply List.map_congr_left
      intro p _
      by_cases hpk : p.1 = k
      · simp [hpk]
      · simp [hpk]
    rw [heq]
    exact h
  next hmem =>
    simp only [List.map_append, List.map_cons, List.map_nil]
    rw [List.nodup_append]
    refine ⟨h, List.nodup_singleton k, ?_⟩
    intro a ha hak
    simp only [List.mem_singleton] at hak
    subst hak
    simp only [List.any_eq_true, beq_iff_eq] at hmem
    rw [List.mem_map] at ha
    obtain ⟨p, hp, hpa⟩ := ha
    exact hmem ⟨p, hp, hpa⟩

theorem buildActors_keys_nodup (lookup : String → Option Obj)
    (ms : List String) :
    ((buildActors lookup ms).map Prod.fst).Nodup := by
  suffices hgen : ∀ acc : List (String × Obj), (acc.map Prod.fst).Nodup →
      ((ms.foldl (fun acc h =>
        match lookup h with
        | some o => insertActor acc h o
        | none => acc) acc).map Prod.fst).Nodup by
    exact hgen [] (by simp)
  induction ms with
  | nil => intro acc hacc; simpa using hacc
  | cons m rest ih =>
    intro acc hacc
    simp only [List.foldl_cons]
    cases hm : lookup m with
    | none => exact ih acc hacc
    | some v => exact ih _ (insertActor_keys_nodup acc m v hacc)

/-- **C3, counterexample.**  The claim states that `getTags` yields one
Hashtag per discovered token regardless of which extension toggles are
enabled; on a node built with `mentions: false, hashtags: true` whose
discovery pass found the token `#foo`, `getTags` yields nothing at all. -/
theorem markdown_tags_need_mentions_enabled :
    (MarkdownText.new ⟨false, true, true⟩ mdHashOnly "#foo").hashtagsList =
      some ["#foo"] ∧
    ((MarkdownText.new ⟨false, true, true⟩ mdHashOnly "#foo").getTags noLookup
        "https://example.com").1 = [] :=
  ⟨rfl, rfl⟩

/-- **C3, amended.**  When the mentions extension is enabled, `getTags`
yields one Mention per discovered handle whose lookup produced an actor with
a non-null id (handles whose lookup failed or produced a non-actor
contribute none, and the resolved record holds each handle at most once),
followed by one Hashtag per discovered token when the hashtags extension is
also enabled — all independent of whether `getHtml` was ever called.  When
the mentions extension is disabled, `getTags` yields nothing, hashtags
included. -/
theorem markdown_tags_spec (md : MarkdownIt) (content : String)
    (opts : MarkdownTextOptions) (lookup : String → Option Obj)
    (origin : String) (hm : opts.mentions = true) :
    ((MarkdownText.new opts md content).getTags lookup origin).1 =
      mentionTagsOf (buildActors lookup (md.discoverM content)) ++
        (if opts.hashtags then (md.discoverH content).map (hashtagTagOf origin)
         else []) ∧
    (((MarkdownText.new opts md content).getHtml lookup origin).2.getTags
        lookup origin).1 =
      ((MarkdownText.new opts md content).getTags lookup origin).1 ∧
    (∀ (h : String) (o : Obj),
      ((h, o) ∈ buildActors lookup (md.discoverM content)) ↔
        (h ∈ md.discoverM content ∧ lookup h = some o)) ∧
    ((buildActors lookup (md.discoverM content)).map Prod.fst).Nodup ∧
    (∀ opts2 : MarkdownTextOptions, opts2.mentions = false →
      ((MarkdownText.new opts2 md content).getTags lookup origin).1 = []) := by
  refine ⟨?_, ?_, buildActors_mem lookup (md.discoverM content),
    buildActors_keys_nodup lookup (md.discoverM content), ?_⟩
  · simp only [MarkdownText.new, MarkdownText.getTags,
      MarkdownText.getMentionedActors, hm, if_true]
    cases hh : opts.hashtags <;>
      simp [mentionTagsOf, hashtagTagOf]
  · simp only [MarkdownText.new, MarkdownText.getHtml, MarkdownText.getTags,
      MarkdownText.getMentionedActors, hm, if_true]
  · intro opts2 h2
    simp [MarkdownText.new, MarkdownText.getTags, h2]

/-- **C3, witness.**  The amended theorem applied to a concrete node with
the mentions extension enabled. -/
theorem markdown_tags_spec_witness :
    ((MarkdownText.new ⟨true, true, true⟩ mdHashOnly "#foo").getTags noLookup
        "https://example.com").1 =
      mentionTagsOf (buildActors noLookup (mdHashOnly.discoverM "#foo")) ++
        (if (true : Bool) then
          (mdHashOnly.discoverH "#foo").map (hashtagTagOf "https://example.com")
         else []) :=
  (markdown_tags_spec mdHashOnly "#foo" ⟨true, true, true⟩ noLookup
    "https://example.com" rfl).1

/-! ## Paragraph balance of the templated engine (claim C2) -/

theorem mSum_append (a b : List String) : mSum (a ++ b) = mSum a + mSum b := by
  simp [mSum]

theorem mSum_cons (c : String) (t : List String) :
    mSum (c :: t) = mDelta c + mSum t := by
  simp [mSum]

theorem mSum_count (l : List String) :
    mSum l = (l.count "<p>" : Int) - (l.count "</p>" : Int) := by
  induction l with
  | nil => simp [mSum]
  | cons c t ih =>
    rw [mSum_cons, ih]
    by_cases h1 : c = "<p>"
    · subst h1
      simp [mDelta, List.count_cons]
      omega
    · by_cases h2 : c = "</p>"
      · subst h2
        simp [mDelta, h1, List.count_cons]
        omega
      · simp [mDelta, h1, h2, List.count_cons]

theorem encodeChar_no_lt (c : Char) : '<' ∉ encodeChar c := by
  unfold encodeChar
  split_ifs with h1 h2 h3 h4 h5
  · decide
  · decide
  · decide
  · decide
  · decide
  · intro hh
    rw [List.mem_singleton] at hh
    exact h2 hh.symm

theorem encode_no_lt (s : String) : '<' ∉ (encode s).data := by
  intro hmem
  simp only [encode] at hmem
  rw [List.mem_flatten] at hmem
  obtain ⟨piece, hpiece, hc⟩ := hmem
  rw [List.mem_map] at hpiece
  obtain ⟨c, _, rfl⟩ := hpiece
  exact encodeChar_no_lt c hc

theorem mDelta_encode (s : String) : mDelta (encode s) = 0 := by
  have h := encode_no_lt s
  unfold mDelta
  split_ifs with h1 h2
  · rw [h1] at h; exact absurd (by decide) h
  · rw [h2] at h; exact absurd (by decide) h
  · rfl

theorem mSum_eq_zero {l : List String} (h : ∀ c ∈ l, mDelta c = 0) :
    mSum l = 0 := by
  induction l with
  | nil => simp [mSum]
  | cons c r ih =>
    rw [mSum_cons, h c (List.mem_cons_self c r),
      ih (fun x hx => h x (List.mem_cons_of_mem c hx))]
    ring

theorem goodSeg_nil (b : Bool) : goodSeg [] b b := by
  refine ⟨by simp [mSum], fun n => ?_⟩
  have : mSum (([] : List String).take n) = 0 := by simp [mSum]
  rw [this]
  cases b <;> simp [stateVal]

theorem goodSeg_single {c : String} (b : Bool) (h : mDelta c = 0) :
    goodSeg [c] b b := by
  have hz : ∀ n : Nat, mSum ([c].take n) = 0 := by
    intro n
    cases n with
    | zero => simp [mSum]
    | succ m =>
      have : ([c] : List String).take (m + 1) = [c] := by simp
      rw [this, mSum_cons, h]
      simp [mSum]
  refine ⟨by rw [mSum_cons, h]; simp [mSum], fun n => ?_⟩
  rw [hz n]
  cases b <;> simp [stateVal]

theorem goodSeg_open : goodSeg ["<p>"] false true := by
  refine ⟨by decide, fun n => ?_⟩
  cases n with
  | zero => decide
  | succ m =>
    have : (["<p>"] : List String).take (m + 1) = ["<p>"] := by simp
    rw [this]
    decide

theorem goodSeg_close : goodSeg ["</p>"] true false := by
  refine ⟨by decide, fun n => ?_⟩
  cases n with
  | zero => decide
  | succ m =>
    have : (["</p>"] : List String).take (m + 1) = ["</p>"] := by simp
    rw [this]
    decide

theorem goodSeg_append {o1 o2 : List String} {b b1 b2 : Bool}
    (h1 : goodSeg o1 b b1) (h2 : goodSeg o2 b1 b2) :
    goodSeg (o1 ++ o2) b b2 := by
  obtain ⟨hs1, hp1⟩ := h1
  obtain ⟨hs2, hp2⟩ := h2
  constructor
  · rw [mSum_append, hs1, hs2]
    ring
  · intro n
    rw [List.take_append_eq_append_take, mSum_append]
    rcases le_or_lt n o1.length with hle | hlt
    · have h0 : n - o1.length = 0 := Nat.sub_eq_zero_of_le hle
      rw [h0, List.take_zero]
      have : mSum ([] : List String) = 0 := by simp [mSum]
      rw [this]
      simpa using hp1 n
    · have hto1 : o1.take n = o1 := List.take_of_length_le (le_of_lt hlt)
      rw [hto1, hs1]
      have h3 := hp2 (n - o1.length)
      constructor <;> linarith [h3.1, h3.2]

theorem markerFree_goodSeg {l : List String} (b : Bool) (h : markerFree l) :
    goodSeg l b b := by
  refine ⟨by rw [mSum_eq_zero h]; ring, fun n => ?_⟩
  rw [mSum_eq_zero (fun c hc => h c (List.take_subset n l hc))]
  cases b <;> simp [stateVal]

theorem wellNested_goodSeg {l : List String} (h : wellNested l) :
    goodSeg l false false := by
  obtain ⟨h1, h2⟩ := h
  exact ⟨by rw [h1]; simp [stateVal], fun n => by simpa [stateVal] using h2 n⟩

theorem goodSeg_wellNested {l : List String} (h : goodSeg l false false) :
    wellNested l := by
  obtain ⟨h1, h2⟩ := h
  exact ⟨by simpa [stateVal] using h1, fun n => by simpa [stateVal] using h2 n⟩

theorem goodSeg_br (l : Nat) (b : Bool) :
    goodSeg (if l > 0 then ["<br>"] else []) b b := by
  split_ifs
  · exact goodSeg_single b (by decide)
  · exact goodSeg_nil b

theorem renderLines_goodSeg (lines : List String) (l : Nat) (b : Bool) :
    goodSeg (renderLines lines l b).1 b (renderLines lines l b).2 := by
  induction lines generalizing l b with
  | nil => simpa [renderLines] using goodSeg_nil b
  | cons line rest ih =>
    cases hb : jsBlank line with
    | true => simpa [renderLines, hb] using ih l b
    | false =>
      simp only [renderLines, hb, Bool.false_eq_true, if_false]
      by_cases hlo : l < 1 ∧ b = false
      · rw [if_pos hlo, if_pos hlo]
        have hl0 : l = 0 := Nat.lt_one_iff.1 hlo.1
        have hbr : ¬ l > 0 := by omega
        rw [if_neg hbr]
        obtain ⟨-, hbf⟩ := hlo
        subst hbf
        exact goodSeg_append
          (goodSeg_append
            (goodSeg_append goodSeg_open (goodSeg_nil true))
            (goodSeg_single true (mDelta_encode line)))
          (ih (l + 1) true)
      · rw [if_neg hlo, if_neg hlo]
        exact goodSeg_append
          (goodSeg_append
            (goodSeg_append (goodSeg_nil b) (goodSeg_br l b))
            (goodSeg_single b (mDelta_encode line)))
          (ih (l + 1) b)

theorem renderParas_goodSeg (paras : List String) (p : Nat) (b : Bool) :
    goodSeg (renderParas paras p b).1 b (renderParas paras p b).2 := by
  induction paras generalizing p b with
  | nil => simpa [renderParas] using goodSeg_nil b
  | cons para rest ih =>
    simp only [renderParas]
    by_cases hcl : 0 < p ∧ b = true
    · rw [if_pos hcl, if_pos hcl]
      obtain ⟨-, hbt⟩ := hcl
      subst hbt
      exact goodSeg_append
        (goodSeg_append goodSeg_close (renderLines_goodSeg (splitNl para) 0 false))
        (ih (p + 1) _)
    · rw [if_neg hcl, if_neg hcl]
      exact goodSeg_append
        (goodSeg_append (goodSeg_nil b) (renderLines_goodSeg (splitNl para) 0 b))
        (ih (p + 1) _)

theorem getHtmlAux_goodSeg (strings : List String) (values : List ChildR)
    (b : Bool)
    (hv : ∀ v ∈ values, (v.isBlock = true → wellNested v.html) ∧
      (v.isBlock = false → markerFree v.html)) :
    goodSeg (TemplatedText.getHtmlAux strings values b).1 b
      (TemplatedText.getHtmlAux strings values b).2 := by
  induction strings generalizing values b with
  | nil => simpa [TemplatedText.getHtmlAux] using goodSeg_nil b
  | cons seg srest ih =>
    cases values with
    | nil =>
      simp only [TemplatedText.getHtmlAux]
      exact goodSeg_append (renderParas_goodSeg (splitParas seg) 0 b)
        (ih [] _ (by simp))
    | cons v vrest =>
      simp only [TemplatedText.getHtmlAux]
      have hvr : ∀ w ∈ vrest, (w.isBlock = true → wellNested w.html) ∧
          (w.isBlock = false → markerFree w.html) :=
        fun w hw => hv w (List.mem_cons_of_mem v hw)
      have hv1 := hv v (List.mem_cons_self v vrest)
      have hpar := renderParas_goodSeg (splitParas seg) 0 b
      set r1 := renderParas (splitParas seg) 0 b with hr1
      cases hblock : v.isBlock with
      | true =>
        have hchild : goodSeg v.html false false :=
          wellNested_goodSeg (hv1.1 hblock)
        cases hr : r1.2 with
        | true =>
          rw [hr] at hpar
          simp only [hblock, hr, and_self, if_true, true_and,
            Bool.true_eq_false, false_and, if_false]
          exact goodSeg_append
            (goodSeg_append
              (goodSeg_append
                (goodSeg_append hpar goodSeg_close)
                (goodSeg_nil false))
              hchild)
            (ih vrest false hvr)
        | false =>
          rw [hr] at hpar
          simp only [hblock, hr, Bool.false_eq_true, and_false, if_false,
            Bool.true_eq_false, false_and]
          exact goodSeg_append
            (goodSeg_append
              (goodSeg_append
                (goodSeg_append hpar (goodSeg_nil false))
                (goodSeg_nil false))
              hchild)
            (ih vrest false hvr)
      | false =>
        have hchild : ∀ c : Bool, goodSeg v.html c c :=
          fun c => markerFree_goodSeg c (hv1.2 hblock)
        cases hr : r1.2 with
        | true =>
          rw [hr] at hpar
          simp only [hblock, hr, Bool.false_eq_true, false_and, if_false,
            Bool.true_eq_false, and_false]
          exact goodSeg_append
            (goodSeg_append
              (goodSeg_append
                (goodSeg_append hpar (goodSeg_nil true))
                (goodSeg_nil true))
              (hchild true))
            (ih vrest true hvr)
        | false =>
          rw [hr] at hpar
          simp only [hblock, hr, Bool.false_eq_true, false_and, if_false,
            and_self, if_true]
          exact goodSeg_append
            (goodSeg_append
              (goodSeg_append
                (goodSeg_append hpar (goodSeg_nil false))
                goodSeg_open)
              (hchild true))
            (ih vrest true hvr)

theorem getHtml_wellNested (strings : List String) (values : List ChildR)
    (hv : ∀ v ∈ values, (v.isBlock = true → wellNested v.html) ∧
      (v.isBlock = false → markerFree v.html)) :
    wellNested (TemplatedText.getHtml strings values) := by
  have h := getHtmlAux_goodSeg strings values false hv
  unfold TemplatedText.getHtml
  apply goodSeg_wellNested
  cases hr : (TemplatedText.getHtmlAux strings values false).2 with
  | true =>
    rw [hr] at h
    simpa [hr] using goodSeg_append h goodSeg_close
  | false =>
    rw [hr] at h
    simpa [hr] using goodSeg_append h (goodSeg_nil false)

theorem encode_ne_popen (s : String) : encode s ≠ "<p>" :=
  fun he => encode_no_lt s (by rw [he]; decide)

theorem encode_ne_pclose (s : String) : encode s ≠ "</p>" :=
  fun he => encode_no_lt s (by rw [he]; decide)

theorem renderLines_pcount (lines : List String) (l : Nat) (b : Bool) :
    (renderLines lines l b).1.count "<p>" =
      (if b = false ∧ l = 0 ∧ lines.any (fun ln => !jsBlank ln) then 1
       else 0) ∧
    (renderLines lines l b).1.count "</p>" = 0 ∧
    (renderLines lines l b).2 =
      (b || (decide (l = 0) && lines.any (fun ln => !jsBlank ln))) := by
  induction lines generalizing l b with
  | nil => simp [renderLines]
  | cons line rest ih =>
    cases hb : jsBlank line with
    | true =>
      have h := ih l b
      simp only [renderLines, hb, if_true]
      simpa [hb] using h
    | false =>
      simp only [renderLines, hb, Bool.false_eq_true, if_false]
      obtain ⟨h1, h2, h3⟩ := ih (l + 1) (if l < 1 ∧ b = false then true else b)
      have hne1 := encode_ne_popen line
      have hne2 := encode_ne_pclose line
      by_cases hlo : l < 1 ∧ b = false
      · rw [if_pos hlo] at h1 h2 h3
        obtain ⟨hl1, hbf⟩ := hlo
        have hl0 : l = 0 := by omega
        subst hl0; subst hbf
        simp only [if_pos (⟨Nat.zero_lt_one, rfl⟩ : (0 : Nat) < 1 ∧
          (false = false))]
        have hbr : ¬ (0 : Nat) > 0 := by omega
        rw [if_neg hbr]
        simp only [List.count_append, List.count_cons, List.count_nil,
          List.nil_append] at h1 h2 h3 ⊢
        simp [hb, hne1, hne2, h1, h2, h3]
      · rw [if_neg hlo] at h1 h2 h3
        rw [if_neg hlo]
        simp only [List.count_append, List.count_cons, List.count_nil,
          List.nil_append]
        rcases Bool.eq_false_or_eq_true b with hbt | hbt
        · subst hbt
          rcases Nat.eq_zero_or_pos l with hl | hl
          · subst hl
            simp_all [hb, hne1, hne2]
          · have hlne : ¬ l = 0 := by omega
            simp_all [hb, hne1, hne2, hlne, hl]
        · subst hbt
          rcases Nat.eq_zero_or_pos l with hl | hl
          · exact absurd ⟨by omega, rfl⟩ hlo
          · have hlne : ¬ l = 0 := by omega
            simp_all [hb, hne1, hne2, hlne, hl]

theorem renderParas_pcount (paras : List String) (p : Nat) (b : Bool)
    (h : p ≠ 0 ∨ b = false) :
    (renderParas paras p b).1.count "<p>" = paras.countP hasContent := by
  induction paras generalizing p b with
  | nil => simp [renderParas]
  | cons para rest ih =>
    simp only [renderParas]
    have hopened0 : (if 0 < p ∧ b = true then false else b) = false := by
      rcases h with hp | hb
      · cases hbt : b with
        | true => simp [Nat.pos_of_ne_zero hp]
        | false => simp
      · simp [hb]
    rw [hopened0]
    obtain ⟨hl1, hl2, hl3⟩ := renderLines_pcount (splitNl para) 0 false
    have hih := ih (p + 1) (renderLines (splitNl para) 0 false).2
      (Or.inl (Nat.succ_ne_zero p))
    have hclose : (if 0 < p ∧ b = true then (["</p>"] : List String)
        else []).count "<p>" = 0 := by
      split_ifs <;> decide
    simp only [List.count_append, hl1, hih, hclose]
    simp [List.countP_cons, hasContent]
    omega

theorem templated_pcount_single (lit : String) :
    (TemplatedText.getHtml [lit] []).count "<p>" =
      (splitParas lit).countP hasContent := by
  unfold TemplatedText.getHtml
  have haux : TemplatedText.getHtmlAux [lit] [] false =
      ((renderParas (splitParas lit) 0 false).1 ++ [],
        (renderParas (splitParas lit) 0 false).2) := by
    simp [TemplatedText.getHtmlAux]
  rw [haux]
  have hr := renderParas_pcount (splitParas lit) 0 false (Or.inr rfl)
  have htail : ∀ b : Bool, ((if b then (["</p>"] : List String)
      else []).count "<p>") = 0 := by
    intro b
    cases b <;> decide
  simp only [List.append_nil, List.count_append, hr, htail]
  omega

/-- **C2.**  For every `TemplatedText` instance whose block children render
well-nested paragraphs and whose inline children emit no paragraph markers,
the concatenated `getHtml` output has equally many `<p>` and `</p>` markers,
in properly nested, non-overlapping (depth at most one) pairs; and for a
template with a single literal and no interpolated values, `getHtml` emits
exactly one paragraph pair per split piece holding a non-blank line — i.e.
exactly N pairs for a literal of N blank-line-separated chunks that each
hold at least one non-blank line. -/
theorem templated_paragraphs_balanced (strings : List String)
    (values : List ChildR)
    (hv : ∀ v ∈ values, (v.isBlock = true → wellNested v.html) ∧
      (v.isBlock = false → markerFree v.html)) :
    wellNested (TemplatedText.getHtml strings values) ∧
    (TemplatedText.getHtml strings values).count "<p>" =
      (TemplatedText.getHtml strings values).count "</p>" ∧
    (∀ lit : String,
      (TemplatedText.getHtml [lit] []).count "<p>" =
        (splitParas lit).countP hasContent ∧
      (TemplatedText.getHtml [lit] []).count "</p>" =
        (splitParas lit).countP hasContent) := by
  have hcount : ∀ (st : List String) (va : List ChildR),
      wellNested (TemplatedText.getHtml st va) →
      (TemplatedText.getHtml st va).count "<p>" =
        (TemplatedText.getHtml st va).count "</p>" := by
    intro st va h
    have hm := mSum_count (TemplatedText.getHtml st va)
    rw [h.1] at hm
    omega
  have hw := getHtml_wellNested strings values hv
  refine ⟨hw, hcount strings values hw, fun lit => ?_⟩
  have h1 := templated_pcount_single lit
  have hw1 := getHtml_wellNested [lit] [] (by simp)
  exact ⟨h1, by rw [← hcount [lit] [] hw1, h1]⟩

/-- **C2, witness.**  The theorem applied to a concrete two-chunk literal
with no values: the output is well nested with exactly two paragraph
pairs. -/
theorem templated_paragraphs_balanced_witness :
    wellNested (TemplatedText.getHtml ["Hi\n\nYo"] []) ∧
    (TemplatedText.getHtml ["Hi\n\nYo"] []).count "<p>" = 2 ∧
    (TemplatedText.getHtml ["Hi\n\nYo"] []).count "</p>" = 2 := by
  have h := templated_paragraphs_balanced ["Hi\n\nYo"] [] (by simp)
  refine ⟨h.1, ?_, ?_⟩
  · rw [(h.2.2 "Hi\n\nYo").1]
    decide
  · rw [(h.2.2 "Hi\n\nYo").2]
    decide

end Botkit
